import Mathlib

/-!
Verification of the DHTCrawl metadata-wire engine (`wire.go`).

The development shallowly embeds the protocol engine of `wire.go`:

* byte sequences are `List Nat` (each entry a byte value);
* the bencode codec (external collaborator `github.com/zeebo/bencode`,
  described in the spec as the structured-data capability) is modelled
  executably: a fuel-based parser producing `BVal` trees mirrors
  `DecodeBytes` into `map[string]interface{}`, and sorted-key encoders
  mirror `EncodeBytes`;
* the `Processor` state (fields `utmetadata`, `metadata`, `pieceLength`,
  `recvedPiece`, plus the installed frame handler/size and whether the
  event channel has been closed) is the structure `Machine`;
* each Go handler becomes a function `Machine → … → StepOut` returning the
  new state, enqueued outbound packets, emitted events, and whether a Go
  runtime panic occurred (out-of-range slice index, negative `make`
  length, or send on a closed channel);
* `Processor.Write`, the stream reassembler, is the generic fuel-based
  loop `gpump`/`write`, instantiated with the machine's `step`.
-/

set_option maxRecDepth 16384

namespace DHTCrawl

/-- Byte sequences (`[]byte` in Go); entries are byte values. -/
abbrev Bytes := List Nat

/-- Byte values of a string's characters (ASCII in all uses here). -/
def bs (s : String) : Bytes := s.toList.map Char.toNat

/-- `BtProtocol` constant of `wire.go`. -/
def BtProtocol : String := "BitTorrent protocol"

/-- `BtExtendedID = byte(0)` of `wire.go`. -/
def BtExtendedID : Nat := 0

/-- `BtMessageID = byte(20)` of `wire.go`. -/
def BtMessageID : Nat := 20

/-- `PieceSize = 1 << 14` of `wire.go`. -/
def PieceSize : Int := 16384

/-- `MaxMetadataSize = 1 << 20` of `wire.go`. -/
def MaxMetadataSize : Int := 1048576

/-- Big-endian reading of a 4-byte frame, as `binary.Read` with
`binary.BigEndian` into a `uint32` does in `handleHead`. -/
def beU32 (b : Bytes) : Nat :=
  b.getD 0 0 * 16777216 + b.getD 1 0 * 65536 + b.getD 2 0 * 256 + b.getD 3 0

/-- Big-endian 4-byte encoding of a length, as `binary.Write` of a
`uint32` does in the packet builders. -/
def u32be (n : Nat) : Bytes :=
  [n / 16777216 % 256, n / 65536 % 256, n / 256 % 256, n % 256]

/-- Decimal digit bytes of a natural number. -/
def natDigits (n : Nat) : Bytes := (Nat.toDigits 10 n).map Char.toNat

/-- Decimal (optionally sign-prefixed) digit bytes of an integer. -/
def intDigits (n : Int) : Bytes :=
  if n < 0 then 45 :: natDigits n.natAbs else natDigits n.natAbs

/-! ## Bencode values and decoding

Modelled from the spec: the structured-data codec is an external
collaborator (spec section 2, "generic structured-data codec ... treated
as a capability"; section 6 fixes the wire form as "standard
bencoded-map/int/string/list encoding with keys in ascending byte
order").  `BVal` plays the role of Go's `interface{}` as produced by the
library's decoder: integers decode to `int64` (so literals outside the
64-bit range are a decode error), byte strings to `string`, lists to
slices and dictionaries to `map[string]interface{}`. -/

inductive BVal : Type where
  | int (n : Int)
  | str (s : Bytes)
  | list (xs : List BVal)
  | dict (kvs : List (Bytes × BVal))

/-- Longest digit run at the head of the input, and the remainder. -/
def splitDigits : Bytes → (Bytes × Bytes)
  | [] => ([], [])
  | c :: rest =>
    if 48 ≤ c ∧ c ≤ 57 then
      let p := splitDigits rest
      (c :: p.1, p.2)
    else ([], c :: rest)

/-- Numeric value of a run of decimal digit bytes. -/
def digitsVal (ds : Bytes) : Nat := ds.foldl (fun a c => a * 10 + (c - 48)) 0

/-- Body of an `i...e` integer: optional minus sign, digits, `e`.
Values outside the `int64` range are rejected, as `strconv.ParseInt`
makes them a decode error in the library. -/
def parseIntBody (b : Bytes) : Option (Int × Bytes) :=
  match b with
  | 45 :: rest =>
    let p := splitDigits rest
    if p.1 = [] then none
    else
      match p.2 with
      | 101 :: r2 =>
        let v : Int := -(digitsVal p.1 : Int)
        if v < -9223372036854775808 then none else some (v, r2)
      | _ => none
  | _ =>
    let p := splitDigits b
    if p.1 = [] then none
    else
      match p.2 with
      | 101 :: r2 =>
        let v : Int := (digitsVal p.1 : Int)
        if 9223372036854775807 < v then none else some (v, r2)
      | _ => none

/-- Fuel-based bencode parser: one value and the unconsumed remainder.
A list or dictionary is parsed element by element, re-entering the
parser on the collection opener (`l`/`d`) re-prepended to the rest, so
the recursion is structural in the fuel; every recursive call's input is
strictly shorter, hence fuel `input.length + 1` always suffices. -/
def parseB : Nat → Bytes → Option (BVal × Bytes)
  | 0, _ => none
  | _ + 1, [] => none
  | fuel + 1, c :: rest =>
    if c = 105 then
      (parseIntBody rest).map (fun p => (BVal.int p.1, p.2))
    else if c = 108 then
      match rest with
      | 101 :: r => some (BVal.list [], r)
      | _ =>
        match parseB fuel rest with
        | none => none
        | some (v, r) =>
          match parseB fuel (108 :: r) with
          | some (BVal.list vs, r2) => some (BVal.list (v :: vs), r2)
          | _ => none
    else if c = 100 then
      match rest with
      | 101 :: r => some (BVal.dict [], r)
      | _ =>
        match parseB fuel rest with
        | some (BVal.str k, r) =>
          match parseB fuel r with
          | none => none
          | some (v, r2) =>
            match parseB fuel (100 :: r2) with
            | some (BVal.dict kvs, r3) => some (BVal.dict ((k, v) :: kvs), r3)
            | _ => none
        | _ => none
    else if 48 ≤ c ∧ c ≤ 57 then
      let p := splitDigits (c :: rest)
      match p.2 with
      | 58 :: r2 =>
        let len := digitsVal p.1
        if len ≤ r2.length then some (BVal.str (r2.take len), r2.drop len)
        else none
      | _ => none
    else none

/-- `bencode.DecodeBytes`: decode one value, ignoring trailing bytes. -/
def decodeBytes (data : Bytes) : Option BVal :=
  (parseB (data.length + 1) data).map Prod.fst

/-- `bencode.DecodeBytes(data, &val)` with `val : map[string]interface{}`:
the decoded value must be a dictionary. -/
def decodeDict (data : Bytes) : Option (List (Bytes × BVal)) :=
  match decodeBytes data with
  | some (BVal.dict kvs) => some kvs
  | _ => none

/-- Go map lookup on the decoded dictionary; on duplicate keys the last
entry wins, as repeated map stores overwrite. -/
def mlookup (kvs : List (Bytes × BVal)) (k : Bytes) : Option BVal :=
  kvs.foldl (fun acc kv => if kv.1 = k then some kv.2 else acc) none

/-- Type assertion `.(int64)` on a looked-up value. -/
def asInt : Option BVal → Option Int
  | some (BVal.int n) => some n
  | _ => none

/-- Type assertion `.(map[string]interface{})` on a looked-up value. -/
def asDict : Option BVal → Option (List (Bytes × BVal))
  | some (BVal.dict kvs) => some kvs
  | _ => none

/-! ## Bencode encoding

Modelled from the spec's codec capability: `EncodeBytes` serializes maps
with keys in ascending byte order and fails (returning nil and an error)
on values reflection cannot serialize, such as function-typed fields. -/

/-- Strict lexicographic byte order on keys. -/
def keyLt : Bytes → Bytes → Bool
  | [], [] => false
  | [], _ :: _ => true
  | _ :: _, [] => false
  | a :: as, b :: bs2 => if a < b then true else if b < a then false else keyLt as bs2

/-- Insertion into a key-sorted association list. -/
def insertKV {α : Type} (kv : Bytes × α) : List (Bytes × α) → List (Bytes × α)
  | [] => [kv]
  | x :: xs => if keyLt x.1 kv.1 then x :: insertKV kv xs else kv :: x :: xs

/-- Insertion sort by key, as the encoder sorts map keys. -/
def sortByKey {α : Type} : List (Bytes × α) → List (Bytes × α)
  | [] => []
  | kv :: rest => insertKV kv (sortByKey rest)

/-- Bencode encoding of an integer. -/
def bencInt (n : Int) : Bytes := 105 :: intDigits n ++ [101]

/-- Bencode encoding of a byte string. -/
def bencStr (s : Bytes) : Bytes := natDigits s.length ++ [58] ++ s

/-- A map value as the reflection-based encoder sees it: either a value
it serializes to the given bytes, or an unsupported value (a function is
the case arising here), which makes the whole encoding fail. -/
inductive GoEnc : Type where
  | bytes (b : Bytes)
  | unsupported
deriving DecidableEq

/-- Encoder body over the already key-sorted entries; an unsupported
value aborts the encoding. -/
def encFields : List (Bytes × GoEnc) → Option Bytes
  | [] => some []
  | (k, GoEnc.bytes b) :: rest => (encFields rest).map (fun r => bencStr k ++ b ++ r)
  | (_, GoEnc.unsupported) :: _ => none

/-- `bencode.EncodeBytes` on a map: sort keys, encode entries, wrap in
`d ... e`; `none` models the nil result on an encoding error. -/
def bencMap (kvs : List (Bytes × GoEnc)) : Option Bytes :=
  (encFields (sortByKey kvs)).map (fun body => 100 :: body ++ [101])

/-! ## The Processor machine

The frame-handler chain of `wire.go` as an explicit state: which handler
is installed (`PHandler`), the demanded frame size (`handlerSize`
mirrors `Processor.HandlerSize`), and the protocol fields `utmetadata`,
`metadata`, `pieceLength`, `recvedPiece` of the `Processor` struct.
`closed` records whether `close(p.event)` has run; a later send on the
event channel is then a Go runtime panic.  The initial handshake packet
sent by `Processor.Start` (built by `packetHandshakeData` from the hash
and a random node id, both owned by files outside `wire.go`) precedes
all inbound processing and is not modelled. -/

/-- The currently installed frame handler: the closure chain of
`handleHandshake` (length byte, then body of `len + 48` bytes), then
`handleHead`/`handleBody`. -/
inductive PHandler : Type where
  | hsLen
  | hsBody (len : Nat)
  | head
  | body
deriving DecidableEq

/-- The `Processor` protocol state. -/
structure Machine : Type where
  handler : PHandler
  handlerSize : Nat
  utmetadata : Int
  metadata : List Bytes
  pieceLength : Int
  recvedPiece : Int
  closed : Bool
deriving DecidableEq

/-- Life-cycle events sent on `p.event`.  Error reasons (formatted
strings in the source) are not carried.  `done` records the assembled
metadata bytes `bytes.Join(p.metadata, ...)`: the typed decode of those
bytes into a `MetadataResult` is the structured-codec capability the
spec declares external, and both of `handleDone`'s outcomes (decode
error or `EventDone`) are a function of exactly these bytes, after which
the event stream closes either way. -/
inductive PEvent : Type where
  | handshake
  | extended
  | piece
  | error
  | done (data : Bytes)
deriving DecidableEq

/-- Result of running one handler: new state, enqueued outbound packets
(sent on `p.output` in order), emitted events, and whether a Go runtime
panic occurred. -/
structure StepOut : Type where
  m : Machine
  outs : List Bytes
  evs : List PEvent
  panicked : Bool
deriving DecidableEq

/-- `p.process(size, handler)`. -/
def process (m : Machine) (size : Nat) (h : PHandler) : Machine :=
  { m with handlerSize := size, handler := h }

/-- Prepend already emitted events to a handler's result. -/
def withEvs (evs : List PEvent) (r : StepOut) : StepOut :=
  { r with evs := evs ++ r.evs }

/-- `Processor.End`: send an error event and close the event channel.
A second `End` sends on the already closed channel, which panics. -/
def pEnd (m : Machine) : StepOut :=
  if m.closed then { m := m, outs := [], evs := [], panicked := true }
  else { m := { m with closed := true }, outs := [], evs := [PEvent.error], panicked := false }

/-- The extended-handshake dictionary sent by `packetExtendedData`:
`EncodeBytes` of a map carrying the capability map `m` with
`ut_metadata` fixed to 1. -/
def extHandshakeMeta : Option Bytes :=
  match bencMap [(bs "ut_metadata", GoEnc.bytes (bencInt 1))] with
  | none => none
  | some inner => bencMap [(bs "m", GoEnc.bytes inner)]

/-- `packetExtendedData`: 4-byte big-endian length, then message id 20,
sub-id 0, and the encoded dictionary (the discarded error is nil here,
so `getD` is exact). -/
def packetExtendedData (_ : Machine) : Bytes :=
  let body := BtMessageID :: BtExtendedID :: extHandshakeMeta.getD []
  u32be body.length ++ body

/-- The `*Processor` value as the reflection-based encoder walks it:
exported fields as dictionary entries in ascending key order.  `Data`
(a byte-slice slice) is serializable; its exact bytes are irrelevant
because the very next field in key order, the function-typed `Handler`,
is unsupported and aborts the whole encoding, so `EncodeBytes` returns
nil with an error for every reachable `Processor` value. -/
def processorFields (_ : Machine) : List (Bytes × GoEnc) :=
  [(bs "Data", GoEnc.bytes (108 :: [101])),
   (bs "Handler", GoEnc.unsupported),
   (bs "HandlerSize", GoEnc.bytes (bencInt 0)),
   (bs "Hash", GoEnc.bytes (bencStr [])),
   (bs "Size", GoEnc.bytes (bencInt 0))]

/-- `bencode.EncodeBytes(map ... msg_type: 0, piece: p ...)` as called by
`packetPieceRequestData`: the value stored under `piece` is `p`, the
`*Processor` itself (not the index `i`), so the encoding fails and the
call site's discarded error leaves `meta` nil. -/
def pieceRequestMeta (m : Machine) : Option Bytes :=
  match bencMap (processorFields m) with
  | none => none
  | some pb => bencMap [(bs "msg_type", GoEnc.bytes (bencInt 0)), (bs "piece", GoEnc.bytes pb)]

/-- `packetPieceRequestData(i)`: 4-byte big-endian length, then message
id 20, the peer's `ut_metadata` id truncated to a byte, and the bytes of
the encoded dictionary (nil, the encode having failed; the parameter `i`
is unused in the source). -/
def packetPieceRequestData (m : Machine) (i : Nat) : Bytes :=
  let body := BtMessageID :: (m.utmetadata.emod 256).toNat :: (pieceRequestMeta m).getD []
  u32be body.length ++ body

/-- The piece-request packet as the spec's codec section describes it:
length, message id, advertised metadata sub-id, and the encoded
dictionary mapping `msg_type` to 0 and `piece` to the index `i`. -/
def specPieceRequest (ut : Int) (i : Nat) : Bytes :=
  let meta := (bencMap [(bs "msg_type", GoEnc.bytes (bencInt 0)),
                        (bs "piece", GoEnc.bytes (bencInt i))]).getD []
  let body := BtMessageID :: (ut.emod 256).toNat :: meta
  u32be body.length ++ body

/-- The three nested key lookups of `handleExtHandshake`:
`metadata_size` as `int64`, the capability map `m`, and its
`ut_metadata` as `int64`; any failure falls through silently. -/
def extParams (ext : List (Bytes × BVal)) : Option (Int × Int) :=
  match asInt (mlookup ext (bs "metadata_size")) with
  | none => none
  | some size =>
    match asDict (mlookup ext (bs "m")) with
    | none => none
    | some mm =>
      match asInt (mlookup mm (bs "ut_metadata")) with
      | none => none
      | some meta => some (size, meta)

/-- Exact integer ceiling of `size / PieceSize`, the value
`int(math.Ceil(float64(size) / float64(PieceSize)))` computes
(`float64` is exact here for every magnitude the theorems below touch;
divergence could only start beyond 2 to the 53rd). -/
def ceilPieces (size : Int) : Int := (size + (PieceSize - 1)) / PieceSize

/-- `handleExtHandshake`: emit the extended event, read the keys (silent
fall-through when absent), store `utmetadata` and `pieceLength`,
allocate the piece table (`make` with a negative length panics; Go's
allocation-size ceiling for astronomically large tables is not
modelled), then validate and either `End` or enqueue one piece request
per index. -/
def handleExtHandshake (m : Machine) (ext : List (Bytes × BVal)) : StepOut :=
  if m.closed then { m := m, outs := [], evs := [], panicked := true }
  else
    match extParams ext with
    | none => { m := m, outs := [], evs := [PEvent.extended], panicked := false }
    | some (size, meta) =>
      let m1 := { m with utmetadata := meta, pieceLength := ceilPieces size }
      if m1.pieceLength < 0 then
        { m := m1, outs := [], evs := [PEvent.extended], panicked := true }
      else
        let m2 := { m1 with metadata := List.replicate m1.pieceLength.toNat [] }
        if m2.utmetadata = 0 ∨ size = 0 ∨ MaxMetadataSize < size then
          withEvs [PEvent.extended] (pEnd m2)
        else
          { m := m2,
            outs := (List.range m2.pieceLength.toNat).map (fun i => packetPieceRequestData m2 i),
            evs := [PEvent.extended], panicked := false }

/-- `bytes.Index(data, "ee")`: first index of the two-byte dictionary
terminator `handlePiece` scans for, `none` for -1. -/
def indexEE : Bytes → Option Nat
  | 101 :: 101 :: _ => some 0
  | _ :: rest => (indexEE rest).map (· + 1)
  | [] => none

/-- `handleDone`: join the piece table in index order and hand the bytes
to the typed decode (see `PEvent.done`); the event stream closes. -/
def handleDone (m : Machine) : StepOut :=
  if m.closed then { m := m, outs := [], evs := [], panicked := true }
  else
    { m := { m with closed := true }, outs := [],
      evs := [PEvent.done m.metadata.flatten], panicked := false }

/-- The storage tail of `handlePiece` (source lines 279 to 283): the
unguarded write `p.metadata[int(n)] = piece` (a panic when `n` is
outside the table), the raw counter increment, and the completion test
against `pieceLength`. -/
def storePiece (m : Machine) (n : Int) (piece : Bytes) : StepOut :=
  if n < 0 ∨ (m.metadata.length : Int) ≤ n then
    { m := m, outs := [], evs := [], panicked := true }
  else
    let m1 := { m with metadata := m.metadata.set n.toNat piece,
                       recvedPiece := m.recvedPiece + 1 }
    if m1.recvedPiece = m1.pieceLength then handleDone m1
    else { m := m1, outs := [], evs := [], panicked := false }

/-- `handlePiece`: emit the piece event, locate the dictionary end by
the `ee` scan, decode the dictionary, require `msg_type` 1 and an
integer `piece`, then store the trailing payload. -/
def handlePiece (m : Machine) (data : Bytes) : StepOut :=
  if m.closed then { m := m, outs := [], evs := [], panicked := true }
  else
    let evs := [PEvent.piece]
    match indexEE data with
    | none => withEvs evs (pEnd m)
    | some i =>
      match decodeDict (data.take (i + 2)) with
      | none => withEvs evs (pEnd m)
      | some info =>
        let piece := data.drop (i + 2)
        match asInt (mlookup info (bs "msg_type")) with
        | none => withEvs evs (pEnd m)
        | some t =>
          if t ≠ 1 then withEvs evs (pEnd m)
          else
            match asInt (mlookup info (bs "piece")) with
            | none => withEvs evs (pEnd m)
            | some n => withEvs evs (storePiece m n piece)

/-- `handleExtended`: sub-id 0 is the extended handshake (decode the
dictionary, `End` on a decode error), anything else a piece message. -/
def handleExtended (m : Machine) (ext : Nat) (data : Bytes) : StepOut :=
  if ext = BtExtendedID then
    match decodeDict data with
    | none => pEnd m
    | some val => handleExtHandshake m val
  else handlePiece m data

/-- `handleBody`: re-install the 4-byte length demand, then dispatch on
the first body byte — the source compares it with `BtExtendedID` (0),
not with the extended message id 20 — handing `data[1]` and `data[2:]`
to `handleExtended`; on a 1-byte body that indexing is out of bounds. -/
def handleBody (m : Machine) (data : Bytes) : StepOut :=
  let m1 := process m 4 PHandler.head
  match data with
  | [] => { m := m1, outs := [], evs := [], panicked := true }
  | b :: rest =>
    if b = BtExtendedID then
      match rest with
      | [] => { m := m1, outs := [], evs := [], panicked := true }
      | ext :: payload => handleExtended m1 ext payload
    else { m := m1, outs := [], evs := [], panicked := false }

/-- `handleHead`: read the big-endian length; a nonzero length installs
the body demand, a zero length leaves the 4-byte head demand in place. -/
def handleHead (m : Machine) (data : Bytes) : StepOut :=
  let length := beU32 data
  if 0 < length then { m := process m length PHandler.body, outs := [], evs := [], panicked := false }
  else { m := m, outs := [], evs := [], panicked := false }

/-- One frame-handler invocation: the dispatch the closure chain of the
source performs.  The handshake states mirror `handleHandshake`: the
length byte installs the body demand; the body handler validates the
protocol string and the extension bit of the reserved bytes, emits the
handshake event, installs the head demand and enqueues the outbound
extended handshake. -/
def step (m : Machine) (data : Bytes) : StepOut :=
  match m.handler with
  | PHandler.hsLen =>
    match data with
    | [] => { m := m, outs := [], evs := [], panicked := true }
    | b :: _ =>
      { m := process m (b + 48) (PHandler.hsBody b), outs := [], evs := [], panicked := false }
  | PHandler.hsBody len =>
    if data.take len ≠ bs BtProtocol then pEnd m
    else
      let reserved := data.drop len
      if (reserved.getD 5 0) &&& 16 = 0 then pEnd m
      else if m.closed then { m := m, outs := [], evs := [], panicked := true }
      else
        { m := process m 4 PHandler.head, outs := [packetExtendedData m],
          evs := [PEvent.handshake], panicked := false }
  | PHandler.head => handleHead m data
  | PHandler.body => handleBody m data

/-- The `Processor` as `NewWire`/`Start` leave it: zeroed protocol
fields, the handshake length handler installed with a 1-byte demand. -/
def initMachine : Machine :=
  { handler := PHandler.hsLen, handlerSize := 1, utmetadata := 0, metadata := [],
    pieceLength := 0, recvedPiece := 0, closed := false }

/-! ## The stream reassembler

`Processor.Write` appends the chunk to the buffer and, while the
buffered size is at least `HandlerSize`, extracts exactly that many
bytes and invokes the installed handler, which installs the next demand.
`gpump` is that loop, generic in the handler state exactly as the source
loop is generic in `Handler`/`HandlerSize`: `next` runs the handler,
`size` reads the current demand and `dead` tells whether a panic has
unwound the loop.  The fuel only bounds the iteration count; every
iteration consumes at least one byte (the loop stops on a zero demand,
where the source loop would spin forever — a state the installed
handlers never produce, every demand they install being positive), so
fuel `buf.length` is always enough.  The returned triple is the final
handler state, the remaining buffer, and the extracted frames in
order. -/

def gpump {σ : Type} (next : σ → Bytes → σ) (size : σ → Nat) (dead : σ → Bool) :
    Nat → σ → Bytes → σ × Bytes × List Bytes
  | 0, st, buf => (st, buf, [])
  | fuel + 1, st, buf =>
    if dead st then (st, buf, [])
    else if 1 ≤ size st ∧ size st ≤ buf.length then
      let r := gpump next size dead fuel (next st (buf.take (size st))) (buf.drop (size st))
      (r.1, r.2.1, buf.take (size st) :: r.2.2)
    else (st, buf, [])

/-- `Processor.Write(data)`: append `data` to the buffered bytes and run
the extraction loop. -/
def write {σ : Type} (next : σ → Bytes → σ) (size : σ → Nat) (dead : σ → Bool)
    (st : σ) (buf : Bytes) (data : Bytes) : σ × Bytes × List Bytes :=
  gpump next size dead (buf ++ data).length st (buf ++ data)

/-- A sequence of `Processor.Write` calls, one per chunk, with the
delivered frames accumulated in order. -/
def writeAll {σ : Type} (next : σ → Bytes → σ) (size : σ → Nat) (dead : σ → Bool)
    (st : σ) (buf : Bytes) : List Bytes → σ × Bytes × List Bytes
  | [] => (st, buf, [])
  | c :: cs =>
    let w := write next size dead st buf c
    let r := writeAll next size dead w.1 w.2.1 cs
    (r.1, r.2.1, w.2.2 ++ r.2.2)

/-- Handler state for running the real machine under the reassembler:
the `Processor` state plus the accumulated outbound packets and events
and the panic flag. -/
structure MRun : Type where
  m : Machine
  outs : List Bytes
  evs : List PEvent
  panicked : Bool
deriving DecidableEq

/-- One handler invocation, accumulating outputs and events. -/
def mnext (s : MRun) (frame : Bytes) : MRun :=
  let r := step s.m frame
  { m := r.m, outs := s.outs ++ r.outs, evs := s.evs ++ r.evs, panicked := r.panicked }

/-- The current `HandlerSize`. -/
def msize (s : MRun) : Nat := s.m.handlerSize

/-- A panic unwinds the loop. -/
def mdead (s : MRun) : Bool := s.panicked

/-- The engine state right after `Start`. -/
def initRun : MRun := { m := initMachine, outs := [], evs := [], panicked := false }

/-- Feed one byte sequence to the freshly started engine through the
public `Write` interface. -/
def runBytes (data : Bytes) : MRun × Bytes × List Bytes :=
  write mnext msize mdead initRun [] data

/-! ## Piece-delivery runs

For the assembly claims: a sequence of already validated piece
deliveries, each processed by the storage tail `storePiece` that
`handlePiece` reaches after its checks. -/

/-- Accumulated result of a delivery sequence. -/
structure RunP : Type where
  m : Machine
  evs : List PEvent
  panicked : Bool
deriving DecidableEq

/-- Process deliveries in order; a panic stops the run. -/
def runPieces (m : Machine) : List (Int × Bytes) → RunP
  | [] => { m := m, evs := [], panicked := false }
  | d :: rest =>
    let r := storePiece m d.1 d.2
    if r.panicked then { m := r.m, evs := r.evs, panicked := true }
    else
      let q := runPieces r.m rest
      { m := q.m, evs := r.evs ++ q.evs, panicked := q.panicked }

/-- The machine right after a valid extended handshake revealed a piece
count of `n` (table allocated, counter zeroed, head demand installed;
the advertised `ut_metadata` id is irrelevant to assembly and fixed). -/
def postExtMachine (n : Nat) : Machine :=
  { handler := PHandler.head, handlerSize := 4, utmetadata := 1,
    metadata := List.replicate n [], pieceLength := (n : Int),
    recvedPiece := 0, closed := false }

/-! ## Concrete inbound byte sequences -/

/-- A well-formed inbound handshake: length byte 19, the canonical
protocol name, reserved bytes with the extension bit (0x10 of byte 5)
set, a 20-byte hash echo and a 20-byte peer id. -/
def goodHandshake : Bytes :=
  19 :: bs BtProtocol ++ [0, 0, 0, 0, 0, 16, 0, 1] ++
    List.replicate 20 1 ++ List.replicate 20 2

/-- A conforming extended-handshake dictionary: capability map with
`ut_metadata` 3 and `metadata_size` 16384 (one piece). -/
def extDictOk : Bytes := bs "d1:md11:ut_metadatai3ee13:metadata_sizei16384ee"

/-- Extended-handshake body as `handleBody` accepts it: first byte 0
(the value the source compares against), sub-id 0, then the dictionary. -/
def extHsBody : Bytes := 0 :: 0 :: extDictOk

/-- Handshake followed by an accepted extended handshake. -/
def validExtScript : Bytes := goodHandshake ++ u32be extHsBody.length ++ extHsBody

/-- The same extended handshake with its real wire message id 20. -/
def extMsg20Body : Bytes := 20 :: 0 :: extDictOk

/-- Handshake followed by a spec-conforming (id 20) extended handshake. -/
def ignoredExtScript : Bytes := goodHandshake ++ u32be extMsg20Body.length ++ extMsg20Body

/-- A piece message carrying `msg_type` 1 and the out-of-range index 5
(the negotiated table has a single slot), with a 2-byte payload. -/
def oobPieceBody : Bytes := 0 :: 3 :: (bs "d8:msg_typei1e5:piecei5ee" ++ [9, 9])

/-- Valid handshake and extended handshake, then the out-of-range piece. -/
def oobPieceScript : Bytes := validExtScript ++ u32be oobPieceBody.length ++ oobPieceBody

/-- A handshake frame whose 19-byte protocol name is wrong. -/
def badHandshake : Bytes := 19 :: bs "Foo protocolXXXXXXX" ++ List.replicate 48 0

/-- The bad handshake followed by 67 further bytes: enough for the
still-installed handshake-body handler to fire once more after the
terminal error. -/
def afterErrorScript : Bytes := badHandshake ++ List.replicate 67 0

/-- Good handshake, then a length-1 message body whose single byte is 0,
the id `handleBody` dispatches on (an ordinary choke message). -/
def oneByteBodyScript : Bytes := goodHandshake ++ [0, 0, 0, 1] ++ [0]

/-- An extended-handshake dictionary lacking `metadata_size`. -/
def extDictNoSize : Bytes := bs "d1:md11:ut_metadatai3eee"

/-- Good handshake, then the extended handshake without `metadata_size`. -/
def noSizeScript : Bytes :=
  goodHandshake ++ u32be (extDictNoSize.length + 2) ++ (0 :: 0 :: extDictNoSize)

/-- The decoded no-`metadata_size` dictionary. -/
def noSizeDict : List (Bytes × BVal) := (decodeDict extDictNoSize).getD []

/-- An extended-handshake dictionary declaring `metadata_size` -16384. -/
def extDictNeg : Bytes := bs "d1:md11:ut_metadatai1ee13:metadata_sizei-16384ee"

/-- The decoded negative-size dictionary. -/
def negSizeDict : List (Bytes × BVal) := (decodeDict extDictNeg).getD []

/-- The decoded conforming dictionary. -/
def okExtDict : List (Bytes × BVal) := (decodeDict extDictOk).getD []

/-- The machine in the post-handshake message loop. -/
def readyMachine : Machine :=
  { initMachine with handler := PHandler.head, handlerSize := 4 }

/-- The machine with a negotiated `ut_metadata` id of 3. -/
def utm3Machine : Machine := { initMachine with utmetadata := 3 }

/-- Point update of a table-valued function. -/
def updateF (f : Nat → Bytes) (i : Nat) (p : Bytes) : Nat → Bytes :=
  fun j => if j = i then p else f j

/-- The table contents after a delivery sequence over an initial table
`f`: each delivery overwrites its slot, so the last write to a slot
wins. -/
def lastWriteD : List (Nat × Bytes) → (Nat → Bytes) → Nat → Bytes
  | [], f, i => f i
  | d :: rest, f, i => lastWriteD rest (updateF f d.1 d.2) i

/-! ## Claim theorems: concrete evaluations -/

/-- C1: the outbound piece-request builder does not encode the piece
index.  `packetPieceRequestData` hands the encoder the `Processor`
value `p` where the index `i` was meant (the parameter `i` is unused in
the source), the encoding fails on the function-typed `Handler` field
and the discarded error leaves the dictionary empty, so with a
negotiated `ut_metadata` id of 3 the built packet is the bare 6 bytes
`00 00 00 02 14 03` for every index, its body carries no decodable
dictionary, and it differs from the packet the spec describes for index
0 (whose dictionary maps `msg_type` to 0 and `piece` to 0). -/
theorem c1_piece_request_encodes_processor :
    packetPieceRequestData utm3Machine 0 = [0, 0, 0, 2, 20, 3] ∧
    packetPieceRequestData utm3Machine 5 = packetPieceRequestData utm3Machine 0 ∧
    specPieceRequest 3 0 =
      [0, 0, 0, 27] ++ [20, 3] ++ bs "d8:msg_typei0e5:piecei0ee" ∧
    packetPieceRequestData utm3Machine 0 ≠ specPieceRequest 3 0 ∧
    (decodeDict ((packetPieceRequestData utm3Machine 0).drop 6)).isNone = true := by
  decide

/-- C2: message-body dispatch compares the first body byte with
`BtExtendedID` (0), not with the extended message id 20.  Feeding a
spec-conforming extended handshake whose body starts with id 20 leaves
the engine untouched after the handshake (no extended event, no error,
no negotiated id, only the re-installed 4-byte demand), while the same
body with first byte 0 is dispatched and negotiates `ut_metadata` 3. -/
theorem c2_dispatch_on_zero_not_twenty :
    (runBytes ignoredExtScript).1.evs = [PEvent.handshake] ∧
    (runBytes ignoredExtScript).1.outs = [packetExtendedData initMachine] ∧
    (runBytes ignoredExtScript).1.m.utmetadata = 0 ∧
    (runBytes ignoredExtScript).1.m.closed = false ∧
    (runBytes ignoredExtScript).1.m.handlerSize = 4 ∧
    (runBytes ignoredExtScript).1.panicked = false ∧
    (runBytes validExtScript).1.evs = [PEvent.handshake, PEvent.extended] ∧
    (runBytes validExtScript).1.m.utmetadata = 3 := by
  decide

/-- C3: a piece message with `msg_type` 1 and an out-of-range index does
not produce an Error event: after a handshake negotiating a one-slot
table, a piece message for index 5 reaches the unguarded write
`p.metadata[int(n)] = piece`, which panics; no error event is emitted
and the table is untouched. -/
theorem c3_out_of_range_piece_panics :
    (runBytes oobPieceScript).1.panicked = true ∧
    (runBytes oobPieceScript).1.evs =
      [PEvent.handshake, PEvent.extended, PEvent.piece] ∧
    (runBytes oobPieceScript).1.m.metadata = [[]] ∧
    (runBytes oobPieceScript).1.m.closed = false := by
  decide

/-- C9: frames keep being processed after the terminal error.  A
handshake with a wrong protocol name ends the attempt (error event,
event channel closed), but the handler chain stays installed: 67 further
buffered bytes are extracted as a third frame and run the handshake-body
handler again, whose second `End` sends on the closed event channel and
panics. -/
theorem c9_frames_after_error :
    (runBytes afterErrorScript).1.evs = [PEvent.error] ∧
    (runBytes afterErrorScript).2.2.length = 3 ∧
    (runBytes afterErrorScript).1.panicked = true := by
  decide

/-- C10: the out-of-bounds branch of `handleBody` is reachable from the
public feed interface: after a good handshake, a declared length of 1
and the single body byte 0 (the id the dispatch accepts) make
`handleExtended(data[1], data[2:])` index past the 1-byte frame, a
panic; the panicking frame is exactly the one-byte body. -/
theorem c10_one_byte_body_out_of_bounds :
    (runBytes oneByteBodyScript).1.panicked = true ∧
    (runBytes oneByteBodyScript).1.evs = [PEvent.handshake] ∧
    (runBytes oneByteBodyScript).2.2.getLast? = some [0] := by
  decide

/-- C4 counterexample: an extended handshake that decodes but lacks
`metadata_size` does not produce a terminal Error.  The engine emits the
extended event, closes nothing, panics nowhere, and keeps awaiting the
next 4-byte length frame. -/
theorem c4_missing_key_is_silent :
    (runBytes noSizeScript).1.evs = [PEvent.handshake, PEvent.extended] ∧
    (runBytes noSizeScript).1.m.closed = false ∧
    (runBytes noSizeScript).1.panicked = false ∧
    (runBytes noSizeScript).1.m.handlerSize = 4 := by
  decide

/-- C5 counterexample: a declared `metadata_size` of -16384 (with
`ut_metadata` 1) is neither rejected with an Error nor followed by piece
requests: it slips past the validation (which only tests 0 and the
upper bound), makes `pieceLength` -1 and panics in
`make([][]byte, -1)`. -/
theorem c5_negative_size_panics :
    extParams negSizeDict = some (-16384, 1) ∧
    (handleExtHandshake readyMachine negSizeDict).panicked = true ∧
    (handleExtHandshake readyMachine negSizeDict).outs = [] ∧
    (handleExtHandshake readyMachine negSizeDict).evs = [PEvent.extended] ∧
    (handleExtHandshake readyMachine negSizeDict).m.pieceLength = -1 := by
  decide

/-- C6 counterexample: delivering the same in-range piece index twice on
a two-slot table triggers assembly although only one distinct slot is
filled: the raw counter reaches `pieceLength` and `handleDone` runs with
slot 1 still empty, emitting the assembled bytes of the half-filled
table. -/
theorem c6_duplicate_triggers_assembly :
    runPieces (postExtMachine 2) [((0 : Int), [7]), ((0 : Int), [9])] =
      { m := { handler := PHandler.head, handlerSize := 4, utmetadata := 1,
               metadata := [[9], []], pieceLength := 2, recvedPiece := 2,
               closed := true },
        evs := [PEvent.done [9]], panicked := false } := by
  decide

/-! ## Claim C8: chunking invariance of the reassembler -/

/-- A dead (panicked) state pumps nothing. -/
theorem gpump_dead {σ : Type} (next : σ → Bytes → σ) (size : σ → Nat) (dead : σ → Bool)
    (st : σ) (h : dead st = true) :
    ∀ (f : Nat) (buf : Bytes), gpump next size dead f st buf = (st, buf, []) := by
  intro f buf
  cases f with
  | zero => rfl
  | succ f => simp [gpump, h]

/-- The fuel does not matter once it covers the buffer length: every
iteration consumes at least one byte. -/
theorem gpump_fuel {σ : Type} (next : σ → Bytes → σ) (size : σ → Nat) (dead : σ → Bool) :
    ∀ (f g : Nat) (st : σ) (buf : Bytes), buf.length ≤ f → buf.length ≤ g →
      gpump next size dead f st buf = gpump next size dead g st buf := by
  intro f
  induction f with
  | zero =>
    intro g st buf hf _
    have hb : buf = [] := List.length_eq_zero.mp (Nat.le_zero.mp hf)
    subst hb
    cases g with
    | zero => rfl
    | succ g =>
      show (st, ([] : Bytes), ([] : List Bytes)) = _
      simp only [gpump]
      split
      · rfl
      · split
        · next h => simp at h; omega
        · rfl
  | succ f ih =>
    intro g st buf hf hg
    cases g with
    | zero =>
      have hb : buf = [] := List.length_eq_zero.mp (Nat.le_zero.mp hg)
      subst hb
      show _ = (st, ([] : Bytes), ([] : List Bytes))
      simp only [gpump]
      split
      · rfl
      · split
        · next h => simp at h; omega
        · rfl
    | succ g =>
      simp only [gpump]
      split
      · rfl
      · split
        · next h =>
          rw [ih g (next st (buf.take (size st))) (buf.drop (size st))
            (by simp only [List.length_drop]; omega)
            (by simp only [List.length_drop]; omega)]
        · rfl

/-- Pumping a buffer split as `u ++ v` is pumping `u`, then pumping the
leftover with `v` appended, with the frame sequences concatenated. -/
theorem gpump_append {σ : Type} (next : σ → Bytes → σ) (size : σ → Nat) (dead : σ → Bool) :
    ∀ (f : Nat) (st : σ) (u v : Bytes), u.length ≤ f →
      gpump next size dead (f + v.length) st (u ++ v) =
        (let w := gpump next size dead f st u
         let w2 := gpump next size dead (w.2.1.length + v.length) w.1 (w.2.1 ++ v)
         (w2.1, w2.2.1, w.2.2 ++ w2.2.2)) := by
  intro f
  induction f with
  | zero =>
    intro st u v hu
    have hb : u = [] := List.length_eq_zero.mp (Nat.le_zero.mp hu)
    subst hb
    simp [gpump]
  | succ f ih =>
    intro st u v hu
    by_cases hd : dead st = true
    · simp only [gpump_dead next size dead st hd]
      simp
    · by_cases hg : 1 ≤ size st ∧ size st ≤ u.length
      · have hlen : (u ++ v).length = u.length + v.length := List.length_append u v
        have hguv : 1 ≤ size st ∧ size st ≤ (u ++ v).length := by
          constructor
          · exact hg.1
          · omega
        have htake : (u ++ v).take (size st) = u.take (size st) := by
          rw [List.take_append_eq_append_take, Nat.sub_eq_zero_of_le hg.2,
            List.take_zero, List.append_nil]
        have hdrop : (u ++ v).drop (size st) = u.drop (size st) ++ v := by
          rw [List.drop_append_eq_append_drop, Nat.sub_eq_zero_of_le hg.2, List.drop_zero]
        have hstep : f + 1 + v.length = (f + v.length) + 1 := by omega
        rw [hstep]
        simp only [gpump, if_neg hd, if_pos hguv, if_pos hg, htake, hdrop]
        rw [ih (next st (u.take (size st))) (u.drop (size st)) v
          (by simp only [List.length_drop]; omega)]
        simp
      · have hw : gpump next size dead (f + 1) st u = (st, u, []) := by
          simp only [gpump, if_neg hd, if_neg hg]
        rw [hw]
        have hfuel : gpump next size dead (f + 1 + v.length) st (u ++ v) =
            gpump next size dead ((u ++ v).length) st (u ++ v) := by
          apply gpump_fuel
          · simp only [List.length_append]; omega
          · exact le_rfl
        rw [hfuel]
        have hlen2 : (u ++ v).length = u.length + v.length := List.length_append u v
        rw [hlen2]
        simp

/-- Two successive `Write` calls deliver the same frames, final state
and leftover as a single call on the concatenated bytes. -/
theorem write_append {σ : Type} (next : σ → Bytes → σ) (size : σ → Nat) (dead : σ → Bool)
    (st : σ) (buf a b : Bytes) :
    write next size dead st buf (a ++ b) =
      (let w := write next size dead st buf a
       let w2 := write next size dead w.1 w.2.1 b
       (w2.1, w2.2.1, w.2.2 ++ w2.2.2)) := by
  have h := gpump_append next size dead (buf ++ a).length st (buf ++ a) b le_rfl
  simp only [write, List.append_assoc, List.length_append, Nat.add_assoc] at h ⊢
  exact h

/-- C8: frame delivery is independent of chunking.  Feeding a byte
sequence to the reassembler as any nonempty succession of `Write` calls
(`writeAll` on the chunk list) produces exactly the frames, final
handler state and leftover buffer of feeding the concatenation in one
call — for every handler family `next`/`size`/`dead`, every starting
state and every buffer carried over. -/
theorem c8_chunking_invariance {σ : Type} (next : σ → Bytes → σ) (size : σ → Nat)
    (dead : σ → Bool) (st : σ) (buf : Bytes) (c : Bytes) (cs : List Bytes) :
    writeAll next size dead st buf (c :: cs) =
      write next size dead st buf (c :: cs).flatten := by
  induction cs generalizing st buf c with
  | nil => simp [writeAll]
  | cons c2 cs ih =>
    show (let w := write next size dead st buf c
          let r := writeAll next size dead w.1 w.2.1 (c2 :: cs)
          (r.1, r.2.1, w.2.2 ++ r.2.2)) = _
    rw [show (c :: c2 :: cs).flatten = c ++ (c2 :: cs).flatten from rfl,
      write_append next size dead st buf c (c2 :: cs).flatten]
    simp only [ih]

/-! ## Claims C6 and C7: the piece table under delivery sequences -/

/-- Setting slot `i` of a tabulated list retabulates with the function
updated at `i`. -/
theorem map_range_set (n i : Nat) (f : Nat → Bytes) (v : Bytes) (h : i < n) :
    ((List.range n).map f).set i v = (List.range n).map (updateF f i v) := by
  apply List.ext_getElem
  · simp
  · intro j h1 h2
    have hj : j < n := by simpa using h2
    rw [List.getElem_set]
    by_cases hij : i = j
    · subst hij
      simp [updateF]
    · rw [if_neg hij]
      simp only [List.getElem_map, List.getElem_range, updateF]
      rw [if_neg (fun hji => hij hji.symm)]

/-- One delivery folds into the carried table function. -/
theorem lastWriteD_cons (d : Nat × Bytes) (rest : List (Nat × Bytes)) (f : Nat → Bytes) :
    lastWriteD (d :: rest) f = lastWriteD rest (updateF f d.1 d.2) := rfl

/-- Characterization of a delivery run: starting from an open machine
whose table tabulates `f` over `n` slots with `k` pieces counted, a
sequence of in-range deliveries that cannot overshoot the piece count
never panics, leaves the table tabulating the last writes over `f`,
advances the raw counter by the delivery count, and fires assembly
(the done event with the index-order concatenation, and the closing of
the event stream) exactly if the deliveries are nonempty and bring the
raw count to `n`. -/
theorem runPieces_char (n : Nat) :
    ∀ (ds : List (Nat × Bytes)) (k : Nat) (f : Nat → Bytes) (m : Machine),
      m.metadata = (List.range n).map f → m.pieceLength = (n : Int) →
      m.recvedPiece = (k : Int) → m.closed = false →
      (∀ d ∈ ds, d.1 < n) → k + ds.length ≤ n →
      (runPieces m (ds.map (fun d => ((d.1 : Int), d.2)))).panicked = false ∧
      (runPieces m (ds.map (fun d => ((d.1 : Int), d.2)))).m.metadata =
        (List.range n).map (lastWriteD ds f) ∧
      (runPieces m (ds.map (fun d => ((d.1 : Int), d.2)))).m.recvedPiece =
        ((k + ds.length : Nat) : Int) ∧
      (runPieces m (ds.map (fun d => ((d.1 : Int), d.2)))).m.pieceLength = (n : Int) ∧
      (ds ≠ [] ∧ k + ds.length = n →
        (runPieces m (ds.map (fun d => ((d.1 : Int), d.2)))).evs =
          [PEvent.done (((List.range n).map (lastWriteD ds f)).flatten)] ∧
        (runPieces m (ds.map (fun d => ((d.1 : Int), d.2)))).m.closed = true) ∧
      (¬(ds ≠ [] ∧ k + ds.length = n) →
        (runPieces m (ds.map (fun d => ((d.1 : Int), d.2)))).evs = [] ∧
        (runPieces m (ds.map (fun d => ((d.1 : Int), d.2)))).m.closed = false) := by
  intro ds
  induction ds with
  | nil =>
    intro k f m hm hp hr hc _ _
    refine ⟨rfl, ?_, by simp [runPieces, hr], by simp [runPieces, hp], ?_, ?_⟩
    · simpa [runPieces, lastWriteD] using hm
    · rintro ⟨h, _⟩; exact absurd rfl h
    · intro _; exact ⟨rfl, hc⟩
  | cons d rest ih =>
    intro k f m hm hp hr hc hd hlen
    have ld : d.1 < n := hd d (List.mem_cons_self d rest)
    have hmlen : m.metadata.length = n := by rw [hm]; simp
    have hguard : ¬(((d.1 : Nat) : Int) < 0 ∨ (m.metadata.length : Int) ≤ ((d.1 : Nat) : Int)) := by
      rw [hmlen]; omega
    have hsetm : m.metadata.set d.1 d.2 = (List.range n).map (updateF f d.1 d.2) := by
      rw [hm, map_range_set n d.1 f d.2 ld]
    have hlist : List.length (d :: rest) = rest.length + 1 := rfl
    by_cases hdone : k + 1 = n
    · have hrest : rest = [] := by
        have := hlen
        rw [hlist] at this
        have : rest.length = 0 := by omega
        exact List.length_eq_zero.mp this
      subst hrest
      have hcond : m.recvedPiece + 1 = m.pieceLength := by
        rw [hr, hp]; omega
      have hstore : storePiece m ((d.1 : Nat) : Int) d.2 =
          { m := { m with metadata := (List.range n).map (updateF f d.1 d.2),
                          recvedPiece := m.recvedPiece + 1, closed := true },
            outs := [],
            evs := [PEvent.done (((List.range n).map (updateF f d.1 d.2)).flatten)],
            panicked := false } := by
        simp only [storePiece, if_neg hguard]
        rw [if_pos hcond, handleDone]
        rw [if_neg (by simp [hc])]
        simp [hsetm]
      simp only [List.map_cons, List.map_nil, runPieces, hstore]
      refine ⟨rfl, rfl, ?_, by simp [hp], ?_, ?_⟩
      · simp only [hr, List.length_cons, List.length_nil]
        push_cast
        ring
      · intro _
        exact ⟨rfl, rfl⟩
      · intro h
        exact absurd ⟨by simp, by simpa [hlist] using hdone⟩ h
    · have hcond : ¬(m.recvedPiece + 1 = m.pieceLength) := by
        rw [hr, hp]; omega
      have hstore : storePiece m ((d.1 : Nat) : Int) d.2 =
          { m := { m with metadata := (List.range n).map (updateF f d.1 d.2),
                          recvedPiece := m.recvedPiece + 1 },
            outs := [], evs := [], panicked := false } := by
        simp only [storePiece, if_neg hguard]
        rw [if_neg hcond]
        simp [hsetm]
      have ihr := ih (k + 1) (updateF f d.1 d.2)
        { m with metadata := (List.range n).map (updateF f d.1 d.2),
                 recvedPiece := m.recvedPiece + 1 }
        rfl (by simpa using hp) (by simp [hr]) (by simpa using hc)
        (fun x hx => hd x (List.mem_cons_of_mem d hx))
        (by rw [hlist] at hlen; omega)
      simp only [List.map_cons, runPieces, hstore, if_neg Bool.false_ne_true]
      refine ⟨ihr.1, ?_, ?_, ihr.2.2.2.1, ?_, ?_⟩
      · rw [lastWriteD_cons]
        exact ihr.2.1
      · rw [ihr.2.2.1, hlist]
        norm_cast
        omega
      · rintro ⟨_, hsum⟩
        rw [hlist] at hsum
        have hne : rest ≠ [] := by
          intro hr0
          subst hr0
          simp at hsum
          omega
        have hq := ihr.2.2.2.2.1 ⟨hne, by omega⟩
        rw [lastWriteD_cons]
        exact ⟨by simp [hq.1], hq.2⟩
      · intro h
        rw [hlist] at h
        have hq := ihr.2.2.2.2.2 (by
          rintro ⟨hne, hsum⟩
          exact h ⟨by simp, by omega⟩)
        exact ⟨by simp [hq.1], hq.2⟩

/-- C4 amended: an extended-handshake dictionary that decodes but lacks
the integer `metadata_size`, or the nested map `m`, or its integer
`ut_metadata`, does not produce a terminal Error: the engine emits the
extended event and otherwise falls through silently — no error, no
outbound packet, no panic, no state change — and keeps processing. -/
theorem c4_missing_keys_fall_through (m : Machine) (ext : List (Bytes × BVal))
    (hc : m.closed = false) (hk : extParams ext = none) :
    handleExtHandshake m ext =
      { m := m, outs := [], evs := [PEvent.extended], panicked := false } := by
  rw [handleExtHandshake, if_neg (by simp [hc]), hk]

/-- Witness for C4: the engine at start of the message loop, fed the
decoded dictionary lacking `metadata_size`. -/
theorem c4_missing_keys_fall_through_witness :
    initMachine.closed = false ∧ extParams noSizeDict = none ∧
    handleExtHandshake initMachine noSizeDict =
      { m := initMachine, outs := [], evs := [PEvent.extended], panicked := false } :=
  ⟨rfl, by decide, c4_missing_keys_fall_through initMachine noSizeDict rfl (by decide)⟩

/-- C5 amended: for a decoded extended handshake carrying integer
`metadata_size` and `ut_metadata` values (`size` within the range where
the source's float ceiling is exact and the table allocation feasible):
a zero `ut_metadata`, a zero `size` or a `size` above 1 MiB is ended
with a terminal error and no piece requests — provided `size` exceeds
-16384; in the valid window (0, 1 MiB] with nonzero id, exactly one
piece request per index 0 .. pieceCount - 1 is enqueued, with
pieceCount the exact ceiling of `size` over 16384; but a negative
`size` is not validated: at or below -16384 the table allocation
panics (no error event), and in (-16384, 0) the engine continues
silently with no error and no requests. -/
theorem c5_size_validation (m : Machine) (ext : List (Bytes × BVal)) (size ut : Int)
    (hc : m.closed = false) (hk : extParams ext = some (size, ut))
    (hlo : -(2 ^ 40) ≤ size) (hhi : size ≤ 2 ^ 40) :
    ((ut = 0 ∨ size = 0 ∨ MaxMetadataSize < size) → -16384 < size →
      (handleExtHandshake m ext).evs = [PEvent.extended, PEvent.error] ∧
      (handleExtHandshake m ext).outs = [] ∧
      (handleExtHandshake m ext).m.closed = true ∧
      (handleExtHandshake m ext).panicked = false) ∧
    (ut ≠ 0 → 0 < size → size ≤ MaxMetadataSize →
      (handleExtHandshake m ext).evs = [PEvent.extended] ∧
      (handleExtHandshake m ext).m.closed = false ∧
      (handleExtHandshake m ext).panicked = false ∧
      (handleExtHandshake m ext).outs =
        (List.range (ceilPieces size).toNat).map
          (fun i => packetPieceRequestData (handleExtHandshake m ext).m i) ∧
      (handleExtHandshake m ext).outs.length = (ceilPieces size).toNat ∧
      1 ≤ (ceilPieces size).toNat) ∧
    (size ≤ -16384 →
      (handleExtHandshake m ext).panicked = true ∧
      (handleExtHandshake m ext).outs = [] ∧
      (handleExtHandshake m ext).evs = [PEvent.extended]) ∧
    (ut ≠ 0 → -16384 < size → size < 0 →
      (handleExtHandshake m ext).evs = [PEvent.extended] ∧
      (handleExtHandshake m ext).outs = [] ∧
      (handleExtHandshake m ext).panicked = false ∧
      (handleExtHandshake m ext).m.closed = false) := by
  have hred : handleExtHandshake m ext =
      (if ceilPieces size < 0 then
        { m := { m with utmetadata := ut, pieceLength := ceilPieces size },
          outs := [], evs := [PEvent.extended], panicked := true }
      else if ut = 0 ∨ size = 0 ∨ MaxMetadataSize < size then
        withEvs [PEvent.extended] (pEnd
          { m with utmetadata := ut, pieceLength := ceilPieces size,
                   metadata := List.replicate (ceilPieces size).toNat [] })
      else
        { m := { m with utmetadata := ut, pieceLength := ceilPieces size,
                        metadata := List.replicate (ceilPieces size).toNat [] },
          outs := (List.range (ceilPieces size).toNat).map
            (fun i => packetPieceRequestData
              { m with utmetadata := ut, pieceLength := ceilPieces size,
                       metadata := List.replicate (ceilPieces size).toNat [] } i),
          evs := [PEvent.extended], panicked := false }) := by
    rw [handleExtHandshake, if_neg (by simp [hc]), hk]
  rw [hred]
  refine ⟨?_, ?_, ?_, ?_⟩
  · intro hbad hgt
    have hpl : ¬(ceilPieces size < 0) := by
      simp only [ceilPieces, PieceSize]; omega
    rw [if_neg hpl, if_pos hbad]
    simp [withEvs, pEnd, hc]
  · intro hut hpos hle
    have hpl : ¬(ceilPieces size < 0) := by
      simp only [ceilPieces, PieceSize]; omega
    rw [if_neg hpl, if_neg (by
      push_neg
      refine ⟨hut, by omega, ?_⟩
      simp only [MaxMetadataSize] at hle ⊢
      omega)]
    refine ⟨rfl, hc, rfl, rfl, by simp, ?_⟩
    simp only [ceilPieces, PieceSize]
    omega
  · intro hneg
    have hpl : ceilPieces size < 0 := by
      simp only [ceilPieces, PieceSize]; omega
    rw [if_pos hpl]
    exact ⟨rfl, rfl, rfl⟩
  · intro hut hgt hlt
    have hpl : ¬(ceilPieces size < 0) := by
      simp only [ceilPieces, PieceSize]; omega
    have hz : ceilPieces size = 0 := by
      simp only [ceilPieces, PieceSize]; omega
    rw [if_neg hpl, if_neg (by
      push_neg
      refine ⟨hut, by omega, ?_⟩
      simp only [MaxMetadataSize]
      omega)]
    refine ⟨rfl, ?_, rfl, hc⟩
    simp [hz]

/-- Witness for C5: the conforming dictionary with `metadata_size`
16384 and `ut_metadata` 3, in the valid window. -/
theorem c5_size_validation_witness :
    readyMachine.closed = false ∧ extParams okExtDict = some (16384, 3) ∧
    -(2 ^ 40) ≤ (16384 : Int) ∧ (16384 : Int) ≤ 2 ^ 40 ∧
    ((3 : Int) ≠ 0 → (0 : Int) < 16384 → (16384 : Int) ≤ MaxMetadataSize →
      (handleExtHandshake readyMachine okExtDict).evs = [PEvent.extended] ∧
      (handleExtHandshake readyMachine okExtDict).m.closed = false ∧
      (handleExtHandshake readyMachine okExtDict).panicked = false ∧
      (handleExtHandshake readyMachine okExtDict).outs =
        (List.range (ceilPieces 16384).toNat).map
          (fun i => packetPieceRequestData (handleExtHandshake readyMachine okExtDict).m i) ∧
      (handleExtHandshake readyMachine okExtDict).outs.length = (ceilPieces 16384).toNat ∧
      1 ≤ (ceilPieces 16384).toNat) :=
  ⟨rfl, by decide, by decide, by decide,
    (c5_size_validation readyMachine okExtDict 16384 3 rfl (by decide)
      (by decide) (by decide)).2.1⟩

/-- C6 amended: over any in-range delivery sequence that does not
overshoot the piece count, the table slot for each index holds the
payload of the last delivery to that index (last write wins, never an
error and never a panic), but assembly is driven by the raw message
count, not the distinct filled slots: the done event fires exactly when
the number of deliveries — duplicates included — reaches `pieceCount`. -/
theorem c6_last_write_and_raw_count (n : Nat) (ds : List (Nat × Bytes))
    (h0 : 0 < n) (hd : ∀ d ∈ ds, d.1 < n) (hlen : ds.length ≤ n) :
    (runPieces (postExtMachine n) (ds.map fun d => ((d.1 : Int), d.2))).panicked = false ∧
    (runPieces (postExtMachine n) (ds.map fun d => ((d.1 : Int), d.2))).m.metadata =
      (List.range n).map (lastWriteD ds (fun _ => [])) ∧
    ((∃ b, PEvent.done b ∈
        (runPieces (postExtMachine n) (ds.map fun d => ((d.1 : Int), d.2))).evs) ↔
      ds.length = n) := by
  have h := runPieces_char n ds 0 (fun _ => []) (postExtMachine n)
    (by simp [postExtMachine, List.map_const']) (by simp [postExtMachine])
    (by simp [postExtMachine]) (by simp [postExtMachine]) hd (by omega)
  refine ⟨h.1, h.2.1, ?_, ?_⟩
  · rintro ⟨b, hb⟩
    by_contra hne
    have hq := h.2.2.2.2.2 (by
      rintro ⟨_, hsum⟩
      exact hne (by omega))
    rw [hq.1] at hb
    exact absurd hb (List.not_mem_nil _)
  · intro hlen2
    have hds : ds ≠ [] := by
      intro h0'
      subst h0'
      simp at hlen2
      omega
    have hq := h.2.2.2.2.1 ⟨hds, by omega⟩
    exact ⟨_, by rw [hq.1]; exact List.mem_singleton.mpr rfl⟩

/-- Witness for C6: the duplicate delivery of index 0 on a two-slot
table instantiates the amended claim. -/
theorem c6_last_write_and_raw_count_witness :
    ((0 < 2) ∧ (∀ d ∈ [((0 : Nat), ([7] : Bytes)), (0, [9])], d.1 < 2) ∧
      ([((0 : Nat), ([7] : Bytes)), (0, [9])].length ≤ 2)) ∧
    ((runPieces (postExtMachine 2)
        ([((0 : Nat), ([7] : Bytes)), (0, [9])].map fun d => ((d.1 : Int), d.2))).panicked
        = false ∧
      (runPieces (postExtMachine 2)
        ([((0 : Nat), ([7] : Bytes)), (0, [9])].map fun d => ((d.1 : Int), d.2))).m.metadata =
        (List.range 2).map (lastWriteD [((0 : Nat), ([7] : Bytes)), (0, [9])] (fun _ => [])) ∧
      ((∃ b, PEvent.done b ∈
          (runPieces (postExtMachine 2)
            ([((0 : Nat), ([7] : Bytes)), (0, [9])].map fun d => ((d.1 : Int), d.2))).evs) ↔
        [((0 : Nat), ([7] : Bytes)), (0, [9])].length = 2)) :=
  ⟨⟨by decide, by decide, by decide⟩,
    c6_last_write_and_raw_count 2 [(0, [7]), (0, [9])] (by decide) (by decide) (by decide)⟩

/-- A sequence of deliveries none of which writes slot `j` leaves the
carried table function unchanged at `j`. -/
theorem lastWriteD_not_mem (j : Nat) :
    ∀ (ds : List (Nat × Bytes)) (f : Nat → Bytes), (∀ d ∈ ds, d.1 ≠ j) →
      lastWriteD ds f j = f j := by
  intro ds
  induction ds with
  | nil => intro f _; rfl
  | cons d rest ih =>
    intro f hd
    rw [lastWriteD_cons, ih _ (fun x hx => hd x (List.mem_cons_of_mem d hx))]
    unfold updateF
    rw [if_neg (Ne.symm (hd d (List.mem_cons_self d rest)))]

/-- Every delivery to slot `j` writes the same payload, so a delivery
sequence tabulated from `payload` leaves `payload j` at any slot `j` it
touches at least once. -/
theorem lastWriteD_payload (payload : Nat → Bytes) (j : Nat) :
    ∀ (order : List Nat) (f : Nat → Bytes), j ∈ order →
      lastWriteD (order.map fun i => (i, payload i)) f j = payload j := by
  intro order
  induction order with
  | nil => intro f h; exact absurd h (List.not_mem_nil j)
  | cons i rest ih =>
    intro f hj
    rw [List.map_cons, lastWriteD_cons]
    by_cases hr : j ∈ rest
    · exact ih _ hr
    · have hij : j = i := by
        rcases List.mem_cons.mp hj with h | h
        · exact h
        · exact absurd h hr
      subst hij
      rw [lastWriteD_not_mem j _ _ (by
        intro d hd
        obtain ⟨x, hx, hxd⟩ := List.mem_map.mp hd
        intro hdj
        apply hr
        have hxj : x = j := by
          rw [← hxd] at hdj
          simpa using hdj
        rwa [hxj] at hx)]
      simp [updateF]

/-- A run over a permutation of all indices: never panics, fills every
slot with its payload, and ends with the done event carrying the
index-order concatenation. -/
theorem runPieces_perm (n : Nat) (payload : Nat → Bytes) (order : List Nat)
    (h0 : 0 < n) (hp : order.Perm (List.range n)) :
    (runPieces (postExtMachine n) (order.map fun (i : Nat) => ((i : Int), payload i))).evs =
      [PEvent.done (((List.range n).map payload).flatten)] ∧
    (runPieces (postExtMachine n) (order.map fun (i : Nat) => ((i : Int), payload i))).m.metadata =
      (List.range n).map payload := by
  have hmm : order.map (fun (i : Nat) => ((i : Int), payload i)) =
      (order.map fun i => (i, payload i)).map (fun d => ((d.1 : Int), d.2)) := by
    rw [List.map_map]
    rfl
  have hlen : order.length = n := by
    have := hp.length_eq
    simpa using this
  have hmem : ∀ j, j < n → j ∈ order := by
    intro j hj
    exact hp.mem_iff.mpr (List.mem_range.mpr hj)
  have h := runPieces_char n (order.map fun i => (i, payload i)) 0 (fun _ => [])
    (postExtMachine n)
    (by simp [postExtMachine, List.map_const']) (by simp [postExtMachine])
    (by simp [postExtMachine]) (by simp [postExtMachine])
    (by
      intro d hd
      obtain ⟨x, hx, hxd⟩ := List.mem_map.mp hd
      rw [← hxd]
      exact List.mem_range.mp (hp.mem_iff.mp hx))
    (by simp [hlen])
  have htab : (List.range n).map
      (lastWriteD (order.map fun i => (i, payload i)) (fun _ => [])) =
      (List.range n).map payload := by
    apply List.map_congr_left
    intro j hj
    exact lastWriteD_payload payload j order _ (hmem j (List.mem_range.mp hj))
  have hne : order ≠ [] := by
    intro h0'
    subst h0'
    simp at hlen
    omega
  have hq := h.2.2.2.2.1 (by
    constructor
    · simp [hne]
    · simp [hlen])
  rw [hmm]
  exact ⟨by rw [hq.1, htab], by rw [h.2.1, htab]⟩

/-- C7: delivering the `n` distinct pieces in any permuted order yields
the assembly of the in-index-order run — the done event carries the
byte-identical concatenation `payload 0 ++ ... ++ payload (n-1)`, and
the final tables coincide, because each payload is stored at its index
and joined in index order. -/
theorem c7_order_independent_assembly (n : Nat) (payload : Nat → Bytes) (order : List Nat)
    (h0 : 0 < n) (hp : order.Perm (List.range n)) :
    (runPieces (postExtMachine n) (order.map fun (i : Nat) => ((i : Int), payload i))).evs =
      [PEvent.done (((List.range n).map payload).flatten)] ∧
    (runPieces (postExtMachine n) (order.map fun (i : Nat) => ((i : Int), payload i))).evs =
      (runPieces (postExtMachine n) ((List.range n).map fun (i : Nat) => ((i : Int), payload i))).evs ∧
    (runPieces (postExtMachine n) (order.map fun (i : Nat) => ((i : Int), payload i))).m.metadata =
      (runPieces (postExtMachine n) ((List.range n).map fun (i : Nat) => ((i : Int), payload i))).m.metadata := by
  have h1 := runPieces_perm n payload order h0 hp
  have h2 := runPieces_perm n payload (List.range n) h0 (List.Perm.refl _)
  exact ⟨h1.1, by rw [h1.1, h2.1], by rw [h1.2, h2.2]⟩

/-- Witness for C7: two payloads delivered in reversed order. -/
theorem c7_order_independent_assembly_witness :
    ((0 < 2) ∧ ([1, 0] : List Nat).Perm (List.range 2)) ∧
    ((runPieces (postExtMachine 2) (([1, 0] : List Nat).map fun (i : Nat) => ((i : Int), [i + 5]))).evs =
      [PEvent.done (((List.range 2).map fun (i : Nat) => [i + 5]).flatten)] ∧
    (runPieces (postExtMachine 2) (([1, 0] : List Nat).map fun (i : Nat) => ((i : Int), [i + 5]))).evs =
      (runPieces (postExtMachine 2) ((List.range 2).map fun (i : Nat) => ((i : Int), [i + 5]))).evs ∧
    (runPieces (postExtMachine 2) (([1, 0] : List Nat).map fun (i : Nat) => ((i : Int), [i + 5]))).m.metadata =
      (runPieces (postExtMachine 2) ((List.range 2).map fun (i : Nat) => ((i : Int), [i + 5]))).m.metadata) :=
  ⟨⟨by decide, by decide⟩,
    c7_order_independent_assembly 2 (fun (i : Nat) => [i + 5]) [1, 0] (by decide) (by decide)⟩

end DHTCrawl
